import Mathlib

/-!
Shallow embedding of `BlockchainPerformancePrediction/BPR/MLP.py`, the
k-fold cross-validation training script for blockchain performance
regression.  Machine floats are modelled as rationals.  Library calls made
by the script (sklearn `KFold`, `MinMaxScaler` and
`mean_absolute_percentage_error`, torch `DataLoader`, pytorch-lightning
`EarlyStopping`, numpy `mean`/`std`/`vstack`) are embedded by their
documented algorithms; the script's own logic is embedded line by line.
-/

/-- Module-level seed (`seed = 42`, MLP.py line 16), passed to `KFold` as
`random_state`. -/
def seedVal : ℕ := 42

/-- Number of cross-validation folds (`KFold(n_splits=5, ...)`, line 148). -/
def nSplits : ℕ := 5

/-- Fold sizes used by sklearn `KFold._iter_test_indices`: every fold gets
`n / 5` samples and the first `n % 5` folds get one extra. -/
def foldSizes (n : ℕ) : List ℕ :=
  (List.range nSplits).map (fun i => n / nSplits + if i < n % nSplits then 1 else 0)

/-- Split a list into consecutive chunks of the given sizes. -/
def chunksBySizes : List ℕ → List ℕ → List (List ℕ)
  | [], _ => []
  | s :: ss, l => l.take s :: chunksBySizes ss (l.drop s)

/-- Test index sets of shuffled `KFold`: consecutive chunks of the shuffled
index list, with the sklearn fold sizes. -/
def kfoldTestSets (perm : List ℕ) : List (List ℕ) :=
  chunksBySizes (foldSizes perm.length) perm

/-- Train index set produced by `BaseCrossValidator.split`: the ascending
indices not in the fold's test set. -/
def kfoldTrainSet (n : ℕ) (test : List ℕ) : List ℕ :=
  (List.range n).filter (fun x => decide (x ∉ test))

/-- The five (train_index, test_index) pairs yielded by `KF.split(X)`. -/
def kfoldSplits (perm : List ℕ) : List (List ℕ × List ℕ) :=
  (kfoldTestSets perm).map (fun t => (kfoldTrainSet perm.length t, t))

/-- One full call `KFold(n_splits=5, random_state=seed, shuffle=True).split(X)`
(line 148): `shuffle` stands for the library RNG permuting `np.arange(n)`
deterministically from the seed. -/
def kfoldRun (shuffle : ℕ → List ℕ → List ℕ) (n : ℕ) : List (List ℕ × List ℕ) :=
  kfoldSplits (shuffle seedVal (List.range n))

/-- Minimum of a nonempty list of rationals (0 on the empty list). -/
def listMin : List ℚ → ℚ
  | [] => 0
  | x :: xs => xs.foldl min x

/-- Maximum of a nonempty list of rationals (0 on the empty list). -/
def listMax : List ℚ → ℚ
  | [] => 0
  | x :: xs => xs.foldl max x

/-- Fitted state of sklearn `MinMaxScaler`: per-feature data minimum and
maximum observed at `fit` time. -/
structure ScalerState where
  dataMin : List ℚ
  dataMax : List ℚ
deriving DecidableEq

/-- Column `j` of a row-major matrix. -/
def colOf (X : List (List ℚ)) (j : ℕ) : List ℚ :=
  X.map (fun r => r.getD j 0)

/-- `MinMaxScaler.fit`: record per-column min and max of the fitted matrix. -/
def msFit (X : List (List ℚ)) : ScalerState :=
  ⟨(List.range (X.headD []).length).map (fun j => listMin (colOf X j)),
   (List.range (X.headD []).length).map (fun j => listMax (colOf X j))⟩

/-- sklearn `_handle_zeros_in_scale`: a zero data range is replaced by 1 so
that the scale division is never by zero. -/
def handleZeros (r : ℚ) : ℚ :=
  if r = 0 then 1 else r

/-- `MinMaxScaler.scale_` for feature `j` with default feature range (0, 1). -/
def msScale (st : ScalerState) (j : ℕ) : ℚ :=
  1 / handleZeros (st.dataMax.getD j 0 - st.dataMin.getD j 0)

/-- `MinMaxScaler.min_` for feature `j` with default feature range (0, 1). -/
def msMin (st : ScalerState) (j : ℕ) : ℚ :=
  0 - st.dataMin.getD j 0 * msScale st j

/-- `MinMaxScaler.transform` on one row: `X * scale_ + min_` columnwise. -/
def msTransformRow (st : ScalerState) (r : List ℚ) : List ℚ :=
  (List.range r.length).map (fun j => r.getD j 0 * msScale st j + msMin st j)

/-- `MinMaxScaler.transform` on a matrix (line 159). -/
def msTransform (st : ScalerState) (X : List (List ℚ)) : List (List ℚ) :=
  X.map (msTransformRow st)

/-- `MinMaxScaler.fit_transform` (line 157): `TransformerMixin.fit_transform`
is `fit` followed by `transform` on the same matrix. -/
def msFitTransform (X : List (List ℚ)) : List (List ℚ) :=
  msTransform (msFit X) X

/-- Column `j` of the raw matrix reshaped to a (-1, 1) column matrix. -/
def colMat (raw : List (List ℚ)) (j : ℕ) : List (List ℚ) :=
  raw.map (fun r => [r.getD j 0])

/-- Column selection chain of `cli_main` (lines 129-146).  `none` models the
fall-through for an unrecognized dataset: `X`/`Y1` are never assigned and the
later use of `X` raises an unbound-name error.  Inside a recognized dataset
the task test is a plain if/else, so every task other than "Latency" takes
the Throughput branch. -/
def selectColumns (dataset task : String) (raw : List (List ℚ)) :
    Option (List (List ℚ) × List (List ℚ)) :=
  if dataset = "BPD-1" then
    some (raw.map (fun r => r.take 2),
          if task = "Latency" then colMat raw 2 else colMat raw 3)
  else if dataset = "HFBTP" then
    some (raw.map (fun r => r.take 3),
          if task = "Latency" then colMat raw 4 else colMat raw 3)
  else if dataset = "MMBPD" then
    some (raw.map (fun r => (r.drop 1).take 2),
          if task = "Latency" then colMat raw 4
          else raw.map (fun r => [r.getD (r.length - 2) 0]))
  else none

/-- `BlockChainDataset.__init__` (lines 22-26): stores the paired arrays and
their shared row count. -/
structure BlockChainDataset where
  len : ℕ
  x_data : List (List ℚ)
  y_data : List (List ℚ)
deriving DecidableEq

/-- Constructor call `BlockChainDataset(data, label)`. -/
def mkBlockChainDataset (data label : List (List ℚ)) : BlockChainDataset :=
  ⟨data.length, data, label⟩

/-- Configuration a torch `DataLoader` call fixes: batch size and whether
sampling is shuffled. -/
structure LoaderCfg where
  batchSize : ℕ
  shuffle : Bool
deriving DecidableEq

/-- A `DataLoader(...)` call: torch defaults `shuffle` to `False` when the
argument is omitted. -/
def mkDataLoader (batchSize : ℕ) (shuffleArg : Option Bool) : LoaderCfg :=
  ⟨batchSize, shuffleArg.getD false⟩

/-- argparse default of `--batch_size` (line 117). -/
def defaultBatchSize : ℕ := 32

/-- Sequential (unshuffled) batching of an index list with a batch size:
consecutive chunks, fueled by the list length. -/
def seqBatchesAux : ℕ → ℕ → List ℕ → List (List ℕ)
  | 0, _, _ => []
  | _ + 1, _, [] => []
  | fuel + 1, bs, x :: xs => (x :: xs).take bs :: seqBatchesAux fuel bs ((x :: xs).drop bs)

/-- Batches an unshuffled `DataLoader` draws from a dataset of given indices. -/
def seqBatches (bs : ℕ) (l : List ℕ) : List (List ℕ) :=
  seqBatchesAux l.length bs l

/-- One layer-level operation of `Backbone.forward`. -/
inductive LayerOp where
  | linear : ℕ → ℕ → LayerOp
  | relu : LayerOp
  | dropout : ℚ → LayerOp
deriving DecidableEq

/-- Shapes of the four fully connected layers of `Backbone` (lines 38-42):
`nn.Linear(2, 128)`, `nn.Linear(128, 64)`, `nn.Linear(64, 8)`,
`nn.Linear(8, 1)`.  The 2 is a hard-coded literal, not a constructor
argument: `Backbone.__init__` takes no parameters. -/
def backboneLayerDims : List (ℕ × ℕ) :=
  [(2, 128), (128, 64), (64, 8), (8, 1)]

/-- Input width accepted by `Backbone.fc1` as written in the source. -/
def backboneInputDim : ℕ := 2

/-- Order of operations in `Backbone.forward` (lines 45-56). -/
def backboneForwardPlan : List LayerOp :=
  [.linear 2 128, .dropout (1/10), .relu,
   .linear 128 64, .dropout (1/10), .relu,
   .linear 64 8, .dropout (1/10), .relu,
   .linear 8 1]

/-- Number of feature columns `cli_main` selects for each recognized dataset
(lines 130, 136, 142). -/
def featureCount (dataset : String) : Option ℕ :=
  if dataset = "BPD-1" then some 2
  else if dataset = "HFBTP" then some 3
  else if dataset = "MMBPD" then some 2
  else none

/-- Arguments of the `EarlyStopping` callback construction (line 176). -/
structure ESConfig where
  monitor : String
  minDelta : ℚ
  patience : ℕ
  mode : String
deriving DecidableEq

/-- `EarlyStopping(monitor="val_MAE", min_delta=0.000, patience=10,
verbose=True, mode="min")`. -/
def earlyStopCallback : ESConfig :=
  ⟨"val_MAE", 0, 10, "min"⟩

/-- `max_epochs=500` of the `pl.Trainer` call (line 180). -/
def trainerMaxEpochs : ℕ := 500

/-- `check_val_every_n_epoch=10` of the `pl.Trainer` call (line 180). -/
def trainerCheckValEveryNEpoch : ℕ := 10

/-- Mutable state of the pytorch-lightning `EarlyStopping` callback in
"min" mode: best monitored value so far (`none` is the initial infinity),
count of consecutive checks without improvement, and the stop flag. -/
structure ESState where
  best : Option ℚ
  wait : ℕ
  stopped : Bool
deriving DecidableEq

/-- Improvement test of `EarlyStopping` in "min" mode: the current value
must undercut the best score by more than `min_delta`. -/
def esImproved (minDelta : ℚ) (best : Option ℚ) (cur : ℚ) : Bool :=
  match best with
  | none => true
  | some b => decide (cur < b - minDelta)

/-- One validation check of `EarlyStopping`: reset the wait counter on
improvement, otherwise increment it and stop once it reaches the patience. -/
def esStep (patience : ℕ) (minDelta : ℚ) (s : ESState) (cur : ℚ) : ESState :=
  if s.stopped then s
  else if esImproved minDelta s.best cur then ⟨some cur, 0, false⟩
  else ⟨s.best, s.wait + 1, decide (patience ≤ s.wait + 1)⟩

/-- Run the early-stopping callback over a sequence of monitored values. -/
def esRun (patience : ℕ) (minDelta : ℚ) (vals : List ℚ) : ESState :=
  vals.foldl (esStep patience minDelta) ⟨none, 0, false⟩

/-- np.finfo(np.float64).eps, the epsilon sklearn substitutes for small
absolute true values in `mean_absolute_percentage_error`. -/
def mapeEps : ℚ := 1 / 2 ^ 52

/-- Denominator sklearn uses for one MAPE term: `maximum(eps, abs(y_true))`. -/
def mapeDenom (t : ℚ) : ℚ := max mapeEps |t|

/-- sklearn `mean_absolute_percentage_error(y_true, y_pred)`. -/
def mape (y yp : List ℚ) : ℚ :=
  (((y.zip yp).map (fun q => |q.1 - q.2| / mapeDenom q.1)).sum) / y.length

/-- Mean of one row (`torch.mean(y_hat, dim=1)` acting on one row). -/
def rowMean (r : List ℚ) : ℚ := r.sum / r.length

/-- MAPE branch of `LitClassifier.evaluate` (lines 86, 90): predictions are
first collapsed row-wise by `torch.mean(_, dim=1)` and reshaped to a
column, then compared against the true targets. -/
def evalMAPE (y : List ℚ) (yhat : List (List ℚ)) : ℚ :=
  mape y (yhat.map rowMean)

/-- Columnwise arithmetic mean over the fold rows (`results.mean(0)`). -/
def colMean (rows : List (List ℚ)) (j : ℕ) : ℚ :=
  ((rows.map (fun r => r.getD j 0)).sum) / rows.length

/-- Columnwise population variance (`np.std` squares this with `ddof=0`,
dividing by the number of rows, not rows - 1). -/
def colPopVar (rows : List (List ℚ)) (j : ℕ) : ℚ :=
  ((rows.map (fun r => (r.getD j 0 - colMean rows j) ^ 2)).sum) / rows.length

/-- The appended mean row, `results.mean(0).reshape((1, -1))`. -/
def meanRow (rows : List (List ℚ)) (ncols : ℕ) : List ℚ :=
  (List.range ncols).map (colMean rows)

/-- The appended std row, `results.std(0)`: numpy takes the square root of
the population variance; `sq` stands for the library square-root primitive. -/
def stdRow (sq : ℚ → ℚ) (rows : List (List ℚ)) (ncols : ℕ) : List ℚ :=
  (List.range ncols).map (fun j => sq (colPopVar rows j))

/-- Line 196: `np.vstack((np.vstack((results, results.mean(0).reshape((1, -1)))),
results.std(0)))` — fold rows, then the mean row, then the std row. -/
def ensembleTable (sq : ℚ → ℚ) (rows : List (List ℚ)) (ncols : ℕ) :
    List (List ℚ) :=
  (rows ++ [meanRow rows ncols]) ++ [stdRow sq rows ncols]

/-- Column labels assigned to the result table (lines 197-200): two plain
`if` statements, so any other task string leaves the default integer column
labels in place (modelled by `none`). -/
def resultColumns (task : String) : Option (List String) :=
  if task = "Latency" then some ["latency_MAE", "latency_RMSE", "latency_MAPE"]
  else if task = "Throughput" then
    some ["throughput_MAE", "throughput_RMSE", "throughput_MAPE"]
  else none

/-- Output path of the result CSV (line 201):
`os.path.join(dataset, task, 'Ensemble_result.csv')`. -/
def resultPath (dataset task : String) : String :=
  dataset ++ "/" ++ task ++ "/" ++ "Ensemble_result.csv"

/-- Row selection `M[index_list]` of numpy fancy indexing. -/
def rowsAt (M : List (List ℚ)) (idx : List ℕ) : List (List ℚ) :=
  idx.map (fun i => M.getD i [])

/-- Everything one iteration of the fold loop builds before training
(lines 152-168). -/
structure FoldSetup where
  scalerState : ScalerState
  scaledTrain : List (List ℚ)
  scaledTest : List (List ℚ)
  trainDataset : BlockChainDataset
  valDataset : BlockChainDataset
  testDataset : BlockChainDataset
  trainLoader : LoaderCfg
  valLoader : LoaderCfg
  testLoader : LoaderCfg
deriving DecidableEq

/-- Per-fold data pipeline of `cli_main` (lines 152-168): slice the fold's
rows, fit the scaler on the train rows only, transform both splits with
that one fitted state, wrap the arrays in datasets, and build the three
data loaders.  The train loader call passes no `shuffle` argument; the val
and test loaders pass `shuffle=False` and use the full held-out size as
batch size. -/
def foldPipeline (X Y1 : List (List ℚ)) (trainIndex testIndex : List ℕ)
    (batchSize : ℕ) : FoldSetup :=
  let Xtrain1 := rowsAt X trainIndex
  let Xtest1 := rowsAt X testIndex
  let Ytrain1 := rowsAt Y1 trainIndex
  let Ytest1 := rowsAt Y1 testIndex
  let scaler := msFit Xtrain1
  let Xtrain1minmax := msFitTransform Xtrain1
  let Xtest1minmax := msTransform scaler Xtest1
  { scalerState := scaler
    scaledTrain := Xtrain1minmax
    scaledTest := Xtest1minmax
    trainDataset := mkBlockChainDataset Xtrain1minmax Ytrain1
    valDataset := mkBlockChainDataset Xtest1minmax Ytest1
    testDataset := mkBlockChainDataset Xtest1minmax Ytest1
    trainLoader := mkDataLoader batchSize none
    valLoader := mkDataLoader Ytest1.length (some false)
    testLoader := mkDataLoader Xtest1.length (some false) }

/-! ### Helper lemmas -/

/-- Helper: `seqBatchesAux` yields no batches on an empty index list. -/
theorem seqBatchesAux_nil (fuel bs : ℕ) : seqBatchesAux fuel bs [] = [] := by
  cases fuel <;> rfl

/-- Helper: with the batch size equal to the dataset size, a nonempty index
list is served as one single batch. -/
theorem seqBatches_full (l : List ℕ) (h : l ≠ []) : seqBatches l.length l = [l] := by
  cases l with
  | nil => exact absurd rfl h
  | cons x xs =>
    show seqBatchesAux (xs.length + 1) (xs.length + 1) (x :: xs) = [x :: xs]
    rw [seqBatchesAux]
    rw [show (x :: xs).take (xs.length + 1) = x :: xs from by simp]
    rw [show (x :: xs).drop (xs.length + 1) = [] from by simp]
    rw [seqBatchesAux_nil]

/-! ### C2, C10: scaler state flow and val/test dataset identity -/

/-- C2: within a fold the scaler state applied to the test split is exactly
the state fitted on that fold's train split (and is unchanged when the test
split changes, so test data never enters the fit), and transforming a train
matrix with the state returned by fitting it reproduces the fit_transform
output exactly. -/
theorem scaler_train_only_roundtrip (X Y : List (List ℚ)) (tr te teAlt : List ℕ)
    (bs : ℕ) (M : List (List ℚ)) :
    (foldPipeline X Y tr te bs).scalerState = msFit (rowsAt X tr) ∧
    (foldPipeline X Y tr te bs).scaledTest =
      msTransform (msFit (rowsAt X tr)) (rowsAt X te) ∧
    (foldPipeline X Y tr teAlt bs).scalerState = (foldPipeline X Y tr te bs).scalerState ∧
    msTransform (msFit M) M = msFitTransform M ∧
    (foldPipeline X Y tr te bs).scaledTrain =
      msTransform (foldPipeline X Y tr te bs).scalerState (rowsAt X tr) :=
  ⟨rfl, rfl, rfl, rfl, rfl⟩

/-- C10: the validation dataset monitored by early stopping and the test
dataset of the final evaluation are built from the identical scaled held-out
arrays: the same scaled test feature matrix and the same test targets. -/
theorem val_and_test_identical (X Y : List (List ℚ)) (tr te : List ℕ) (bs : ℕ) :
    (foldPipeline X Y tr te bs).valDataset = (foldPipeline X Y tr te bs).testDataset ∧
    (foldPipeline X Y tr te bs).valDataset =
      mkBlockChainDataset ((foldPipeline X Y tr te bs).scaledTest) (rowsAt Y te) :=
  ⟨rfl, rfl⟩

/-! ### C4: data loader configuration -/

/-- C4 counterexample: the training loader is built with no `shuffle`
argument, which torch defaults to `False`, so training mini-batches are not
shuffled — refuting the claim that they are drawn with shuffling. -/
theorem train_loader_not_shuffled_cex :
    (foldPipeline [[1, 2]] [[3]] [0] [0] defaultBatchSize).trainLoader.shuffle = false := by
  decide

/-- C4 amended: training mini-batches use the configured batch size
(default 32) but are drawn without shuffling (the `DataLoader` call omits
`shuffle`, defaulting to `False`); the validation and test loaders each use
a single unshuffled batch spanning the entire held-out split. -/
theorem loaders_amended (X Y : List (List ℚ)) (tr te : List ℕ) (bs : ℕ)
    (hte : te ≠ []) :
    (foldPipeline X Y tr te bs).trainLoader.batchSize = bs ∧
    (foldPipeline X Y tr te bs).trainLoader.shuffle = false ∧
    defaultBatchSize = 32 ∧
    (foldPipeline X Y tr te bs).valLoader = ⟨te.length, false⟩ ∧
    (foldPipeline X Y tr te bs).testLoader = ⟨te.length, false⟩ ∧
    seqBatches te.length (List.range te.length) = [List.range te.length] := by
  refine ⟨rfl, rfl, rfl, ?_, ?_, ?_⟩
  · show mkDataLoader (rowsAt Y te).length (some false) = _
    simp [mkDataLoader, rowsAt]
  · show mkDataLoader (rowsAt X te).length (some false) = _
    simp [mkDataLoader, rowsAt]
  · have h1 : List.range te.length ≠ [] := by
      simp only [ne_eq, List.range_eq_nil]
      intro h
      exact hte (List.eq_nil_of_length_eq_zero h)
    have h2 := seqBatches_full (List.range te.length) h1
    rwa [List.length_range] at h2

/-- Witness for the amended C4 at a concrete fold. -/
theorem loaders_amended_witness :
    (([0] : List ℕ) ≠ []) ∧
    ((foldPipeline [] [] [] [0] 32).trainLoader.batchSize = 32 ∧
     (foldPipeline [] [] [] [0] 32).trainLoader.shuffle = false ∧
     defaultBatchSize = 32 ∧
     (foldPipeline [] [] [] [0] 32).valLoader = ⟨1, false⟩ ∧
     (foldPipeline [] [] [] [0] 32).testLoader = ⟨1, false⟩ ∧
     seqBatches 1 (List.range 1) = [List.range 1]) :=
  ⟨by decide, loaders_amended [] [] [] [0] 32 (by decide)⟩

/-! ### C5: backbone input dimensionality -/

/-- C5 counterexample: the HFBTP dataset selects 3 feature columns, but the
first layer of `Backbone` is the hard-coded `nn.Linear(2, 128)`, so the model
does not accept 3 input features as the claim states. -/
theorem backbone_input_dim_cex :
    featureCount "HFBTP" = some 3 ∧ backboneInputDim = 2 := by
  exact ⟨by decide, by decide⟩

/-- C5 amended: the input dimensionality is the hard-coded literal 2 of
`nn.Linear(2, 128)` (a source comment instructs editing it to 3 by hand for
HFBTP); it matches the 2 feature columns of BPD-1 and MMBPD but not the 3
of HFBTP, whose selected feature rows have width 3 ≠ 2; the network is
2 → 128 → 64 → 8 → 1 with ReLU after the first three layers and dropout
rate 1/10 before each activation. -/
theorem backbone_amended (r : List ℚ) (hr : 3 ≤ r.length) :
    backboneInputDim = 2 ∧
    backboneLayerDims = [(backboneInputDim, 128), (128, 64), (64, 8), (8, 1)] ∧
    backboneForwardPlan =
      [.linear backboneInputDim 128, .dropout (1/10), .relu,
       .linear 128 64, .dropout (1/10), .relu,
       .linear 64 8, .dropout (1/10), .relu,
       .linear 8 1] ∧
    featureCount "BPD-1" = some backboneInputDim ∧
    featureCount "MMBPD" = some backboneInputDim ∧
    featureCount "HFBTP" = some 3 ∧
    (r.take 3).length ≠ backboneInputDim := by
  refine ⟨rfl, rfl, rfl, by decide, by decide, by decide, ?_⟩
  simp only [List.length_take, backboneInputDim]
  omega

/-- Witness for the amended C5 at a concrete 3-wide feature row. -/
theorem backbone_amended_witness :
    3 ≤ ([1, 2, 3] : List ℚ).length ∧
    (backboneInputDim = 2 ∧
     backboneLayerDims = [(backboneInputDim, 128), (128, 64), (64, 8), (8, 1)] ∧
     backboneForwardPlan =
       [.linear backboneInputDim 128, .dropout (1/10), .relu,
        .linear 128 64, .dropout (1/10), .relu,
        .linear 64 8, .dropout (1/10), .relu,
        .linear 8 1] ∧
     featureCount "BPD-1" = some backboneInputDim ∧
     featureCount "MMBPD" = some backboneInputDim ∧
     featureCount "HFBTP" = some 3 ∧
     (([1, 2, 3] : List ℚ).take 3).length ≠ backboneInputDim) :=
  ⟨by decide, backbone_amended [1, 2, 3] (by decide)⟩

/-! ### C3: dataset/task configuration handling -/

/-- C3 counterexample: for the recognized dataset "BPD-1" an unrecognized
task name does not fail; it silently selects exactly the columns of the
Throughput task. -/
theorem select_columns_silent_default_cex :
    (selectColumns "BPD-1" "NoSuchTask" [[1, 2, 3, 4, 5]]).isSome = true ∧
    selectColumns "BPD-1" "NoSuchTask" [[1, 2, 3, 4, 5]] =
      selectColumns "BPD-1" "Throughput" [[1, 2, 3, 4, 5]] := by
  exact ⟨by decide, by decide⟩

/-- C3 amended: an unrecognized dataset name leaves the feature matrix
unassigned, so the run fails loudly with an unbound-name error (modelled by
`none`); but for each recognized dataset any task name other than
"Latency" — including unrecognized ones — silently selects the Throughput
target column instead of raising a configuration error. -/
theorem select_columns_amended (dataset task taskU : String) (raw : List (List ℚ))
    (hd1 : dataset ≠ "BPD-1") (hd2 : dataset ≠ "HFBTP") (hd3 : dataset ≠ "MMBPD")
    (ht : taskU ≠ "Latency") :
    selectColumns dataset task raw = none ∧
    selectColumns "BPD-1" taskU raw = selectColumns "BPD-1" "Throughput" raw ∧
    selectColumns "HFBTP" taskU raw = selectColumns "HFBTP" "Throughput" raw ∧
    selectColumns "MMBPD" taskU raw = selectColumns "MMBPD" "Throughput" raw := by
  have hth : ("Throughput" : String) ≠ "Latency" := by decide
  refine ⟨?_, ?_, ?_, ?_⟩ <;>
    simp [selectColumns, hd1, hd2, hd3, ht, hth]

/-- Witness for the amended C3 at a concrete unrecognized dataset and task. -/
theorem select_columns_amended_witness :
    ("WXYZ" : String) ≠ "BPD-1" ∧ ("WXYZ" : String) ≠ "HFBTP" ∧
    ("WXYZ" : String) ≠ "MMBPD" ∧ ("Oops" : String) ≠ "Latency" ∧
    (selectColumns "WXYZ" "Throughput" ([] : List (List ℚ)) = none ∧
     selectColumns "BPD-1" "Oops" ([] : List (List ℚ)) =
       selectColumns "BPD-1" "Throughput" ([] : List (List ℚ)) ∧
     selectColumns "HFBTP" "Oops" ([] : List (List ℚ)) =
       selectColumns "HFBTP" "Throughput" ([] : List (List ℚ)) ∧
     selectColumns "MMBPD" "Oops" ([] : List (List ℚ)) =
       selectColumns "MMBPD" "Throughput" ([] : List (List ℚ))) :=
  ⟨by decide, by decide, by decide, by decide,
   select_columns_amended "WXYZ" "Throughput" "Oops" []
     (by decide) (by decide) (by decide) (by decide)⟩

/-! ### C8: constant train column in the scaler -/

/-- Helper: `getD` into a map over `List.range` evaluates the function. -/
theorem getD_range_map (f : ℕ → ℚ) (L j : ℕ) (d : ℚ) (hj : j < L) :
    ((List.range L).map f).getD j d = f j := by
  have hlen : j < ((List.range L).map f).length := by
    simpa using hj
  rw [List.getD_eq_getElem _ _ hlen]
  simp

/-- Helper: folding `min` over a list of copies of the accumulator value. -/
theorem foldl_min_const (c : ℚ) (xs : List ℚ) (h : ∀ v ∈ xs, v = c) :
    xs.foldl min c = c := by
  induction xs with
  | nil => rfl
  | cons x xs ih =>
    have hx : x = c := h x (by simp)
    have hrest : ∀ v ∈ xs, v = c := fun v hv => h v (by simp [hv])
    simp [hx, ih hrest]

/-- Helper: folding `max` over a list of copies of the accumulator value. -/
theorem foldl_max_const (c : ℚ) (xs : List ℚ) (h : ∀ v ∈ xs, v = c) :
    xs.foldl max c = c := by
  induction xs with
  | nil => rfl
  | cons x xs ih =>
    have hx : x = c := h x (by simp)
    have hrest : ∀ v ∈ xs, v = c := fun v hv => h v (by simp [hv])
    simp [hx, ih hrest]

/-- Helper: the minimum of a nonempty constant list is its value. -/
theorem listMin_const (c : ℚ) (l : List ℚ) (hne : l ≠ []) (h : ∀ v ∈ l, v = c) :
    listMin l = c := by
  cases l with
  | nil => exact absurd rfl hne
  | cons x xs =>
    have hx : x = c := h x (by simp)
    have hrest : ∀ v ∈ xs, v = c := fun v hv => h v (by simp [hv])
    simp only [listMin, hx]
    exact foldl_min_const c xs hrest

/-- Helper: the maximum of a nonempty constant list is its value. -/
theorem listMax_const (c : ℚ) (l : List ℚ) (hne : l ≠ []) (h : ∀ v ∈ l, v = c) :
    listMax l = c := by
  cases l with
  | nil => exact absurd rfl hne
  | cons x xs =>
    have hx : x = c := h x (by simp)
    have hrest : ∀ v ∈ xs, v = c := fun v hv => h v (by simp [hv])
    simp only [listMax, hx]
    exact foldl_max_const c xs hrest

/-- C8: a feature column that is constant over the whole train split does
not make the scaler divide by zero — the zero data range is replaced by the
nonzero divisor 1 — and the fallback output of that column under
fit_transform is deterministically 0 on every row. -/
theorem scaler_constant_column (X : List (List ℚ)) (j : ℕ) (c : ℚ)
    (hne : X ≠ []) (hj : j < (X.headD []).length)
    (hc : ∀ r ∈ X, r.getD j 0 = c)
    (hlen : ∀ r ∈ X, r.length = (X.headD []).length) :
    handleZeros ((msFit X).dataMax.getD j 0 - (msFit X).dataMin.getD j 0) = 1 ∧
    (∀ r ∈ msFitTransform X, r.getD j 0 = 0) := by
  have hcolne : colOf X j ≠ [] := by
    cases X with
    | nil => exact absurd rfl hne
    | cons r rs => simp [colOf]
  have hcolconst : ∀ v ∈ colOf X j, v = c := by
    intro v hv
    obtain ⟨r, hr, rfl⟩ := List.mem_map.mp hv
    exact hc r hr
  have hminc : (msFit X).dataMin.getD j 0 = c := by
    show ((List.range (X.headD []).length).map
      (fun j => listMin (colOf X j))).getD j 0 = c
    rw [getD_range_map _ _ _ _ hj]
    exact listMin_const c _ hcolne hcolconst
  have hmaxc : (msFit X).dataMax.getD j 0 = c := by
    show ((List.range (X.headD []).length).map
      (fun j => listMax (colOf X j))).getD j 0 = c
    rw [getD_range_map _ _ _ _ hj]
    exact listMax_const c _ hcolne hcolconst
  have hhz : handleZeros ((msFit X).dataMax.getD j 0 - (msFit X).dataMin.getD j 0) = 1 := by
    rw [hminc, hmaxc]
    simp [handleZeros]
  refine ⟨hhz, ?_⟩
  intro r hr
  obtain ⟨r0, hr0, rfl⟩ := List.mem_map.mp hr
  have hr0len : r0.length = (X.headD []).length := hlen r0 hr0
  have hjr : j < r0.length := hr0len ▸ hj
  show (msTransformRow (msFit X) r0).getD j 0 = 0
  unfold msTransformRow
  rw [getD_range_map _ _ _ _ hjr]
  rw [hc r0 hr0]
  have hscale : msScale (msFit X) j = 1 := by
    unfold msScale
    rw [hhz]
    norm_num
  have hmsmin : msMin (msFit X) j = -c := by
    unfold msMin
    rw [hminc, hscale]
    ring
  rw [hscale, hmsmin]
  ring

/-- Witness for C8 at a concrete train matrix whose first column is
constant. -/
theorem scaler_constant_column_witness :
    (([[5, 1], [5, 2]] : List (List ℚ)) ≠ []) ∧
    (0 < (([[5, 1], [5, 2]] : List (List ℚ)).headD []).length) ∧
    (∀ r ∈ ([[5, 1], [5, 2]] : List (List ℚ)), r.getD 0 0 = 5) ∧
    (∀ r ∈ ([[5, 1], [5, 2]] : List (List ℚ)),
      r.length = (([[5, 1], [5, 2]] : List (List ℚ)).headD []).length) ∧
    (handleZeros ((msFit [[5, 1], [5, 2]]).dataMax.getD 0 0 -
        (msFit [[5, 1], [5, 2]]).dataMin.getD 0 0) = 1 ∧
     (∀ r ∈ msFitTransform [[5, 1], [5, 2]], r.getD 0 0 = 0)) :=
  ⟨by decide, by decide, by decide, by decide,
   scaler_constant_column [[5, 1], [5, 2]] 0 5
     (by decide) (by decide) (by decide) (by decide)⟩

/-! ### C9: MAPE guard for zero-valued true targets -/

/-- C9: when an evaluation batch contains a true target equal to zero, the
MAPE computation of `evaluate` does not divide by zero: every denominator is
the strictly positive `maximum(eps, abs(y_true))`, at a zero target the
denominator deterministically becomes the epsilon, and the computed value is
the defined guarded formula. -/
theorem mape_zero_target_guarded (y : List ℚ) (yhat : List (List ℚ)) (_hz : (0:ℚ) ∈ y) :
    (∀ t ∈ y, 0 < mapeDenom t) ∧
    mapeDenom 0 = mapeEps ∧
    (∀ q : ℚ, |0 - q| / mapeDenom 0 = |q| / mapeEps) ∧
    evalMAPE y yhat =
      (((y.zip (yhat.map rowMean)).map
        (fun q => |q.1 - q.2| / mapeDenom q.1)).sum) / y.length := by
  have heps : (0:ℚ) < mapeEps := by norm_num [mapeEps]
  have hd0 : mapeDenom 0 = mapeEps := by
    unfold mapeDenom
    rw [abs_zero]
    exact max_eq_left (le_of_lt heps)
  refine ⟨?_, hd0, ?_, rfl⟩
  · intro t ht
    exact lt_of_lt_of_le heps (le_max_left _ _)
  · intro q
    rw [hd0, zero_sub, abs_neg]

/-- Witness for C9 at a concrete batch with a zero target. -/
theorem mape_zero_target_guarded_witness :
    ((0:ℚ) ∈ ([0, 1] : List ℚ)) ∧
    ((∀ t ∈ ([0, 1] : List ℚ), 0 < mapeDenom t) ∧
     mapeDenom 0 = mapeEps ∧
     (∀ q : ℚ, |0 - q| / mapeDenom 0 = |q| / mapeEps) ∧
     evalMAPE [0, 1] [[2], [3]] =
       (((([0, 1] : List ℚ).zip (([[2], [3]] : List (List ℚ)).map rowMean)).map
         (fun q => |q.1 - q.2| / mapeDenom q.1)).sum) / ([0, 1] : List ℚ).length) :=
  ⟨by decide, mape_zero_target_guarded [0, 1] [[2], [3]] (by decide)⟩

/-! ### C7: aggregation of the fold metrics table -/

/-- C7: for every 5-row fold metrics table, the written result table is the
5 fold rows followed by a row equal to the columnwise arithmetic mean and a
row equal to the columnwise population standard deviation (numpy `std` uses
`ddof=0`, dividing the squared deviations by the row count 5); the result
columns are the three lowercase task-prefixed metric names and the file
path is `<dataset>/<task>/Ensemble_result.csv`. -/
theorem ensemble_aggregation (a b c d e : List ℚ) (sq : ℚ → ℚ)
    (hsq : ∀ j < 3, 0 ≤ sq (colPopVar [a, b, c, d, e] j) ∧
      (sq (colPopVar [a, b, c, d, e] j)) ^ 2 = colPopVar [a, b, c, d, e] j) :
    (ensembleTable sq [a, b, c, d, e] 3).length = 7 ∧
    (ensembleTable sq [a, b, c, d, e] 3).take 5 = [a, b, c, d, e] ∧
    (∀ j < 3, ((ensembleTable sq [a, b, c, d, e] 3).getD 5 []).getD j 0 =
      (a.getD j 0 + b.getD j 0 + c.getD j 0 + d.getD j 0 + e.getD j 0) / 5) ∧
    (∀ j < 3, 0 ≤ ((ensembleTable sq [a, b, c, d, e] 3).getD 6 []).getD j 0 ∧
      5 * (((ensembleTable sq [a, b, c, d, e] 3).getD 6 []).getD j 0) ^ 2 =
        (a.getD j 0 - (a.getD j 0 + b.getD j 0 + c.getD j 0 + d.getD j 0 + e.getD j 0) / 5) ^ 2 +
        (b.getD j 0 - (a.getD j 0 + b.getD j 0 + c.getD j 0 + d.getD j 0 + e.getD j 0) / 5) ^ 2 +
        (c.getD j 0 - (a.getD j 0 + b.getD j 0 + c.getD j 0 + d.getD j 0 + e.getD j 0) / 5) ^ 2 +
        (d.getD j 0 - (a.getD j 0 + b.getD j 0 + c.getD j 0 + d.getD j 0 + e.getD j 0) / 5) ^ 2 +
        (e.getD j 0 - (a.getD j 0 + b.getD j 0 + c.getD j 0 + d.getD j 0 + e.getD j 0) / 5) ^ 2) ∧
    resultColumns "Latency" = some ["latency_MAE", "latency_RMSE", "latency_MAPE"] ∧
    resultColumns "Throughput" =
      some ["throughput_MAE", "throughput_RMSE", "throughput_MAPE"] ∧
    resultPath "MMBPD" "Throughput" = "MMBPD/Throughput/Ensemble_result.csv" := by
  have hT : ensembleTable sq [a, b, c, d, e] 3 =
      [a, b, c, d, e, meanRow [a, b, c, d, e] 3, stdRow sq [a, b, c, d, e] 3] := rfl
  have hmean : ∀ j : ℕ, j < 3 → colMean [a, b, c, d, e] j =
      (a.getD j 0 + b.getD j 0 + c.getD j 0 + d.getD j 0 + e.getD j 0) / 5 := by
    intro j hj
    simp only [colMean, List.map_cons, List.map_nil, List.sum_cons, List.sum_nil,
      List.length_cons, List.length_nil]
    push_cast
    ring
  refine ⟨rfl, rfl, ?_, ?_, by decide, by decide, by decide⟩
  · intro j hj
    rw [hT]
    show (meanRow [a, b, c, d, e] 3).getD j 0 = _
    unfold meanRow
    rw [getD_range_map _ _ _ _ hj]
    exact hmean j hj
  · intro j hj
    rw [hT]
    have hstd : ((stdRow sq [a, b, c, d, e] 3) : List ℚ).getD j 0 =
        sq (colPopVar [a, b, c, d, e] j) := by
      unfold stdRow
      rw [getD_range_map _ _ _ _ hj]
    show 0 ≤ (stdRow sq [a, b, c, d, e] 3).getD j 0 ∧
      5 * ((stdRow sq [a, b, c, d, e] 3).getD j 0) ^ 2 = _
    rw [hstd]
    obtain ⟨h0, h1⟩ := hsq j hj
    refine ⟨h0, ?_⟩
    rw [h1]
    unfold colPopVar
    simp only [hmean j hj, List.map_cons, List.map_nil, List.sum_cons, List.sum_nil,
      List.length_cons, List.length_nil]
    push_cast
    ring

/-- Witness for C7 at a concrete table of five equal fold rows, where the
population variance of every column is 0. -/
theorem ensemble_aggregation_witness :
    (∀ j < 3, 0 ≤ (0:ℚ) ∧ ((0:ℚ)) ^ 2 = colPopVar [[1, 2, 3], [1, 2, 3], [1, 2, 3], [1, 2, 3], [1, 2, 3]] j) ∧
    ((ensembleTable (fun _ => 0) [[1, 2, 3], [1, 2, 3], [1, 2, 3], [1, 2, 3], [1, 2, 3]] 3).length = 7 ∧
     (ensembleTable (fun _ => 0) [[1, 2, 3], [1, 2, 3], [1, 2, 3], [1, 2, 3], [1, 2, 3]] 3).take 5 = [[1, 2, 3], [1, 2, 3], [1, 2, 3], [1, 2, 3], [1, 2, 3]] ∧
     (∀ j < 3, ((ensembleTable (fun _ => 0) [[1, 2, 3], [1, 2, 3], [1, 2, 3], [1, 2, 3], [1, 2, 3]] 3).getD 5 []).getD j 0 =
       (([1, 2, 3] : List ℚ).getD j 0 + ([1, 2, 3] : List ℚ).getD j 0 + ([1, 2, 3] : List ℚ).getD j 0 + ([1, 2, 3] : List ℚ).getD j 0 + ([1, 2, 3] : List ℚ).getD j 0) / 5) ∧
     (∀ j < 3, 0 ≤ ((ensembleTable (fun _ => 0) [[1, 2, 3], [1, 2, 3], [1, 2, 3], [1, 2, 3], [1, 2, 3]] 3).getD 6 []).getD j 0 ∧
       5 * (((ensembleTable (fun _ => 0) [[1, 2, 3], [1, 2, 3], [1, 2, 3], [1, 2, 3], [1, 2, 3]] 3).getD 6 []).getD j 0) ^ 2 =
        (([1, 2, 3] : List ℚ).getD j 0 - (([1, 2, 3] : List ℚ).getD j 0 + ([1, 2, 3] : List ℚ).getD j 0 + ([1, 2, 3] : List ℚ).getD j 0 + ([1, 2, 3] : List ℚ).getD j 0 + ([1, 2, 3] : List ℚ).getD j 0) / 5) ^ 2 +
        (([1, 2, 3] : List ℚ).getD j 0 - (([1, 2, 3] : List ℚ).getD j 0 + ([1, 2, 3] : List ℚ).getD j 0 + ([1, 2, 3] : List ℚ).getD j 0 + ([1, 2, 3] : List ℚ).getD j 0 + ([1, 2, 3] : List ℚ).getD j 0) / 5) ^ 2 +
        (([1, 2, 3] : List ℚ).getD j 0 - (([1, 2, 3] : List ℚ).getD j 0 + ([1, 2, 3] : List ℚ).getD j 0 + ([1, 2, 3] : List ℚ).getD j 0 + ([1, 2, 3] : List ℚ).getD j 0 + ([1, 2, 3] : List ℚ).getD j 0) / 5) ^ 2 +
        (([1, 2, 3] : List ℚ).getD j 0 - (([1, 2, 3] : List ℚ).getD j 0 + ([1, 2, 3] : List ℚ).getD j 0 + ([1, 2, 3] : List ℚ).getD j 0 + ([1, 2, 3] : List ℚ).getD j 0 + ([1, 2, 3] : List ℚ).getD j 0) / 5) ^ 2 +
        (([1, 2, 3] : List ℚ).getD j 0 - (([1, 2, 3] : List ℚ).getD j 0 + ([1, 2, 3] : List ℚ).getD j 0 + ([1, 2, 3] : List ℚ).getD j 0 + ([1, 2, 3] : List ℚ).getD j 0 + ([1, 2, 3] : List ℚ).getD j 0) / 5) ^ 2) ∧
     resultColumns "Latency" = some ["latency_MAE", "latency_RMSE", "latency_MAPE"] ∧
     resultColumns "Throughput" =
       some ["throughput_MAE", "throughput_RMSE", "throughput_MAPE"] ∧
     resultPath "MMBPD" "Throughput" = "MMBPD/Throughput/Ensemble_result.csv") :=
  ⟨by
    intro j hj
    refine ⟨le_refl 0, ?_⟩
    interval_cases j <;>
      norm_num [colPopVar, colMean, List.getD_cons_zero, List.getD_cons_succ],
   ensemble_aggregation [1, 2, 3] [1, 2, 3] [1, 2, 3] [1, 2, 3] [1, 2, 3]
     (fun _ => 0) (by
      intro j hj
      refine ⟨le_refl 0, ?_⟩
      interval_cases j <;>
        norm_num [colPopVar, colMean, List.getD_cons_zero, List.getD_cons_succ])⟩

/-! ### C6: early stopping -/

/-- Helper: a stopped early-stopping state absorbs any further value. -/
theorem esStep_stopped (p : ℕ) (d : ℚ) (s : ESState) (c : ℚ) (h : s.stopped = true) :
    esStep p d s c = s := by
  unfold esStep
  rw [h]
  simp

/-- Helper: a stopped early-stopping state absorbs any further sequence. -/
theorem esFold_stopped (p : ℕ) (d : ℚ) (l : List ℚ) (s : ESState) (h : s.stopped = true) :
    l.foldl (esStep p d) s = s := by
  induction l with
  | nil => rfl
  | cons x xs ih =>
    rw [List.foldl_cons, esStep_stopped p d s x h]
    exact ih

/-- Helper: over a run of values none of which undercuts the recorded best,
the wait counter grows by one per value unless the callback stops. -/
theorem es_no_improve_fold (p : ℕ) (d : ℚ) (hd : 0 ≤ d) (l : List ℚ) :
    ∀ (s : ESState) (b : ℚ), s.stopped = false → s.best = some b →
      (∀ v ∈ l, b ≤ v) →
      (l.foldl (esStep p d) s).stopped = true ∨
      ((l.foldl (esStep p d) s).wait = s.wait + l.length ∧
       (l.foldl (esStep p d) s).stopped = false) := by
  induction l with
  | nil =>
    intro s b hst _ _
    right
    exact ⟨by simp, hst⟩
  | cons x xs ih =>
    intro s b hst hb hall
    have hx : b ≤ x := hall x (by simp)
    have himp : esImproved d s.best x = false := by
      rw [hb]
      unfold esImproved
      simp only [decide_eq_false_iff_not, not_lt]
      linarith
    have hstep : esStep p d s x = ⟨s.best, s.wait + 1, decide (p ≤ s.wait + 1)⟩ := by
      unfold esStep
      rw [hst, himp]
      simp
    rw [List.foldl_cons, hstep]
    by_cases hp : p ≤ s.wait + 1
    · left
      have hT : (⟨s.best, s.wait + 1, decide (p ≤ s.wait + 1)⟩ : ESState).stopped = true := by
        simp [hp]
      rw [esFold_stopped p d xs _ hT]
      exact hT
    · have hst2 : (⟨s.best, s.wait + 1, decide (p ≤ s.wait + 1)⟩ : ESState).stopped = false := by
        simp [hp]
      have hrest : ∀ v ∈ xs, b ≤ v := fun v hv => hall v (by simp [hv])
      rcases ih ⟨s.best, s.wait + 1, decide (p ≤ s.wait + 1)⟩ b hst2 hb hrest with h | ⟨hw, hs⟩
      · left
        exact h
      · right
        refine ⟨?_, hs⟩
        rw [hw]
        simp only [List.length_cons]
        omega

/-- Helper: a live early-stopping state always keeps its wait counter below
the patience. -/
theorem es_wait_lt_fold (p : ℕ) (d : ℚ) (hp : 0 < p) (l : List ℚ) :
    ∀ s : ESState, s.stopped = false → s.wait < p →
      (l.foldl (esStep p d) s).stopped = true ∨
      ((l.foldl (esStep p d) s).stopped = false ∧ (l.foldl (esStep p d) s).wait < p) := by
  induction l with
  | nil =>
    intro s h1 h2
    right
    exact ⟨h1, h2⟩
  | cons x xs ih =>
    intro s h1 h2
    rw [List.foldl_cons]
    by_cases himp : esImproved d s.best x = true
    · have hstep : esStep p d s x = ⟨some x, 0, false⟩ := by
        unfold esStep
        rw [h1, himp]
        simp
      rw [hstep]
      exact ih _ rfl hp
    · have himp2 : esImproved d s.best x = false := by
        simpa using himp
      have hstep : esStep p d s x = ⟨s.best, s.wait + 1, decide (p ≤ s.wait + 1)⟩ := by
        unfold esStep
        rw [h1, himp2]
        simp
      rw [hstep]
      by_cases hpw : p ≤ s.wait + 1
      · left
        have hT : (⟨s.best, s.wait + 1, decide (p ≤ s.wait + 1)⟩ : ESState).stopped = true := by
          simp [hpw]
        rw [esFold_stopped p d xs _ hT]
        exact hT
      · exact ih _ (by simp [hpw]) (by simp at hpw ⊢; omega)

/-- Helper: with zero minimum delta, a live run's recorded best undercuts
every value seen and every initially recorded best. -/
theorem es_best_min (p : ℕ) (l : List ℚ) :
    ∀ s : ESState,
      (l.foldl (esStep p 0) s).stopped = true ∨
      ((∀ b0, s.best = some b0 →
          ∃ b, (l.foldl (esStep p 0) s).best = some b ∧ b ≤ b0) ∧
       (∀ v ∈ l, ∃ b, (l.foldl (esStep p 0) s).best = some b ∧ b ≤ v)) := by
  induction l with
  | nil =>
    intro s
    right
    refine ⟨fun b0 h => ⟨b0, h, le_refl b0⟩, ?_⟩
    intro v hv
    exact absurd hv (by simp)
  | cons x xs ih =>
    intro s
    by_cases hst : s.stopped = true
    · left
      rw [List.foldl_cons, esStep_stopped p 0 s x hst, esFold_stopped p 0 xs s hst]
      exact hst
    · have hst2 : s.stopped = false := by
        simpa using hst
      by_cases himp : esImproved 0 s.best x = true
      · have hstep : esStep p 0 s x = ⟨some x, 0, false⟩ := by
          unfold esStep
          rw [hst2, himp]
          simp
        rw [List.foldl_cons, hstep]
        rcases ih ⟨some x, 0, false⟩ with h | ⟨h1, h2⟩
        · left
          exact h
        · right
          have hbx : ∃ b, (xs.foldl (esStep p 0) ⟨some x, 0, false⟩).best = some b ∧ b ≤ x :=
            h1 x rfl
          refine ⟨?_, ?_⟩
          · intro b0 hb0
            obtain ⟨b, hb, hble⟩ := hbx
            refine ⟨b, hb, ?_⟩
            have himpx : x ≤ b0 := by
              revert himp
              unfold esImproved
              rw [hb0]
              simp only [decide_eq_true_eq]
              intro hlt
              linarith
            linarith
          · intro v hv
            rcases List.mem_cons.mp hv with rfl | hv2
            · exact hbx
            · exact h2 v hv2
      · have himp2 : esImproved 0 s.best x = false := by
          simpa using himp
        obtain ⟨b0, hb0⟩ : ∃ b0, s.best = some b0 := by
          cases hbb : s.best with
          | none =>
            exfalso
            revert himp2
            unfold esImproved
            rw [hbb]
            simp
          | some b0 => exact ⟨b0, rfl⟩
        have hxb0 : b0 ≤ x := by
          revert himp2
          unfold esImproved
          rw [hb0]
          simp only [decide_eq_false_iff_not, not_lt]
          intro h
          linarith
        have hstep : esStep p 0 s x = ⟨s.best, s.wait + 1, decide (p ≤ s.wait + 1)⟩ := by
          unfold esStep
          rw [hst2, himp2]
          simp
        rw [List.foldl_cons, hstep]
        rcases ih ⟨s.best, s.wait + 1, decide (p ≤ s.wait + 1)⟩ with h | ⟨h1, h2⟩
        · left
          exact h
        · right
          have hbb0 : ∃ b, (xs.foldl (esStep p 0)
              ⟨s.best, s.wait + 1, decide (p ≤ s.wait + 1)⟩).best = some b ∧ b ≤ b0 :=
            h1 b0 hb0
          refine ⟨?_, ?_⟩
          · intro b1 hb1
            rw [hb0] at hb1
            obtain rfl : b0 = b1 := by injection hb1
            exact hbb0
          · intro v hv
            rcases List.mem_cons.mp hv with rfl | hv2
            · obtain ⟨b, hb, hble⟩ := hbb0
              exact ⟨b, hb, by linarith⟩
            · exact h2 v hv2

/-- Helper: folding `min` either returns the accumulator or a list element. -/
theorem foldl_min_mem (xs : List ℚ) : ∀ a : ℚ, xs.foldl min a = a ∨ xs.foldl min a ∈ xs := by
  induction xs with
  | nil =>
    intro a
    left
    rfl
  | cons x xs ih =>
    intro a
    rw [List.foldl_cons]
    rcases ih (min a x) with h | h
    · rcases le_total a x with hax | hxa
      · left
        rw [h, min_eq_left hax]
      · right
        rw [h, min_eq_right hxa]
        simp
    · right
      simp [h]

/-- Helper: the minimum of a nonempty list is one of its elements. -/
theorem listMin_mem (l : List ℚ) (h : l ≠ []) : listMin l ∈ l := by
  cases l with
  | nil => exact absurd rfl h
  | cons x xs =>
    show xs.foldl min x ∈ x :: xs
    rcases foldl_min_mem xs x with h1 | h1
    · rw [h1]
      simp
    · simp [h1]

/-- Helper: a take of a sum splits into a take and a take of the drop. -/
theorem take_add_split (l : List ℚ) (m n : ℕ) :
    l.take (m + n) = l.take m ++ (l.drop m).take n := by
  rw [List.take_drop]
  rw [show l.take m = (l.take (m + n)).take m from by
    rw [List.take_take, min_eq_left (Nat.le_add_right m n)]]
  exact (List.take_append_drop m (l.take (m + n))).symm

/-- C6: the early-stopping callback monitors `val_MAE` with zero minimum
delta, patience 10 and minimization mode, validation runs every 10 epochs
up to 500; and on any monitored value sequence that never undercuts the
minimum of its first N+1 values after checkpoint N, the callback has
stopped by checkpoint N + 10. -/
theorem early_stopping_halts (vals : List ℚ) (N : ℕ)
    (hlen : N + 1 + earlyStopCallback.patience ≤ vals.length)
    (hni : ∀ v ∈ vals.drop (N + 1), listMin (vals.take (N + 1)) ≤ v) :
    earlyStopCallback = ⟨"val_MAE", 0, 10, "min"⟩ ∧
    trainerMaxEpochs = 500 ∧
    trainerCheckValEveryNEpoch = 10 ∧
    (esRun earlyStopCallback.patience earlyStopCallback.minDelta
      (vals.take (N + 1 + earlyStopCallback.patience))).stopped = true := by
  refine ⟨rfl, rfl, rfl, ?_⟩
  have hlen10 : N + 1 + 10 ≤ vals.length := hlen
  show (esRun 10 0 (vals.take (N + 1 + 10))).stopped = true
  have hsplit : vals.take (N + 1 + 10) =
      vals.take (N + 1) ++ (vals.drop (N + 1)).take 10 :=
    take_add_split vals (N + 1) 10
  unfold esRun
  rw [hsplit, List.foldl_append]
  cases hstop : ((vals.take (N + 1)).foldl (esStep 10 0) ⟨none, 0, false⟩).stopped with
  | true =>
    rw [esFold_stopped 10 0 _ _ hstop]
    exact hstop
  | false =>
    have hAne : vals.take (N + 1) ≠ [] := by
      intro hcon
      have hlc := congrArg List.length hcon
      simp only [List.length_take, List.length_nil] at hlc
      omega
    rcases es_best_min 10 (vals.take (N + 1)) ⟨none, 0, false⟩ with h | ⟨_, h2⟩
    · rw [hstop] at h
      exact absurd h (by simp)
    · obtain ⟨b, hbest, hble⟩ :=
        h2 (listMin (vals.take (N + 1))) (listMin_mem _ hAne)
      have hallB : ∀ v ∈ (vals.drop (N + 1)).take 10, b ≤ v := by
        intro v hv
        have hv2 : v ∈ vals.drop (N + 1) := List.take_subset 10 _ hv
        exact le_trans hble (hni v hv2)
      have hBlen : ((vals.drop (N + 1)).take 10).length = 10 := by
        simp only [List.length_take, List.length_drop]
        omega
      have hwlt : ((vals.take (N + 1)).foldl (esStep 10 0) ⟨none, 0, false⟩).wait < 10 := by
        rcases es_wait_lt_fold 10 0 (by norm_num) (vals.take (N + 1))
            ⟨none, 0, false⟩ rfl (by norm_num) with h | ⟨_, hw⟩
        · rw [hstop] at h
          exact absurd h (by simp)
        · exact hw
      rcases es_no_improve_fold 10 0 (le_refl 0) ((vals.drop (N + 1)).take 10)
          _ b hstop hbest hallB with hdone | ⟨hw, hns⟩
      · exact hdone
      · exfalso
        rcases es_wait_lt_fold 10 0 (by norm_num) ((vals.drop (N + 1)).take 10)
            _ hstop hwlt with hdone2 | ⟨_, hwlt2⟩
        · rw [hdone2] at hns
          exact absurd hns (by simp)
        · rw [hBlen] at hw
          omega

/-- Witness for C6 on a concrete monitored sequence that stops improving at
checkpoint 1: the callback has stopped by checkpoint 11. -/
theorem early_stopping_halts_witness :
    (1 + 1 + earlyStopCallback.patience ≤
      ([5, 4, 4, 4, 4, 4, 4, 4, 4, 4, 4, 4] : List ℚ).length) ∧
    (∀ v ∈ ([5, 4, 4, 4, 4, 4, 4, 4, 4, 4, 4, 4] : List ℚ).drop (1 + 1),
      listMin (([5, 4, 4, 4, 4, 4, 4, 4, 4, 4, 4, 4] : List ℚ).take (1 + 1)) ≤ v) ∧
    (earlyStopCallback = ⟨"val_MAE", 0, 10, "min"⟩ ∧
     trainerMaxEpochs = 500 ∧
     trainerCheckValEveryNEpoch = 10 ∧
     (esRun earlyStopCallback.patience earlyStopCallback.minDelta
       (([5, 4, 4, 4, 4, 4, 4, 4, 4, 4, 4, 4] : List ℚ).take
         (1 + 1 + earlyStopCallback.patience))).stopped = true) :=
  ⟨by decide, by decide,
   early_stopping_halts [5, 4, 4, 4, 4, 4, 4, 4, 4, 4, 4, 4] 1 (by decide) (by decide)⟩

/-! ### C1: the k-fold split partitions the index range -/

/-- Helper: the sklearn fold sizes sum to the sample count. -/
theorem foldSizes_sum (n : ℕ) : (foldSizes n).sum = n := by
  have h5 : n % 5 < 5 := Nat.mod_lt n (by norm_num)
  have hdm := Nat.div_add_mod n 5
  simp only [foldSizes, nSplits]
  rw [show List.range 5 = [0, 1, 2, 3, 4] from rfl]
  simp only [List.map_cons, List.map_nil, List.sum_cons, List.sum_nil]
  split_ifs <;> omega

/-- Helper: chunking by sizes that sum to the length recovers the list. -/
theorem chunksBySizes_join (ss : List ℕ) :
    ∀ l : List ℕ, ss.sum = l.length → (chunksBySizes ss l).flatten = l := by
  induction ss with
  | nil =>
    intro l h
    simp only [List.sum_nil] at h
    rw [List.eq_nil_of_length_eq_zero h.symm]
    rfl
  | cons s ss ih =>
    intro l h
    simp only [List.sum_cons] at h
    have h2 : ss.sum = (l.drop s).length := by
      simp only [List.length_drop]
      omega
    show l.take s ++ (chunksBySizes ss (l.drop s)).flatten = l
    rw [ih (l.drop s) h2, List.take_append_drop]

/-- Helper: chunking yields one chunk per requested size. -/
theorem chunksBySizes_length (ss : List ℕ) :
    ∀ l : List ℕ, (chunksBySizes ss l).length = ss.length := by
  induction ss with
  | nil =>
    intro l
    rfl
  | cons s ss ih =>
    intro l
    simp only [chunksBySizes, List.length_cons, ih]

/-- Helper: every chunk is a sublist of the chunked list. -/
theorem chunksBySizes_sublist (ss : List ℕ) :
    ∀ l t : List ℕ, t ∈ chunksBySizes ss l → t.Sublist l := by
  induction ss with
  | nil =>
    intro l t ht
    exact absurd ht (by simp [chunksBySizes])
  | cons s ss ih =>
    intro l t ht
    rcases List.mem_cons.mp ht with rfl | ht2
    · exact List.take_sublist s l
    · exact (ih (l.drop s) t ht2).trans (List.drop_sublist s l)

/-- Helper: in a family of lists with duplicate-free concatenation, any
element of the concatenation lies in exactly one member list. -/
theorem countP_join_nodup (x : ℕ) (L : List (List ℕ)) :
    L.flatten.Nodup → x ∈ L.flatten → L.countP (fun t => decide (x ∈ t)) = 1 := by
  induction L with
  | nil =>
    intro _ hx
    exact absurd hx (by simp)
  | cons t ts ih =>
    intro hnd hx
    rw [show (t :: ts).flatten = t ++ ts.flatten from rfl] at hnd hx
    obtain ⟨hndt, hndts, hdisj⟩ := List.nodup_append.mp hnd
    rw [List.countP_cons]
    rcases List.mem_append.mp hx with hxt | hxts
    · have hzero : ts.countP (fun u => decide (x ∈ u)) = 0 := by
        rw [List.countP_eq_zero]
        intro u hu
        simp only [decide_eq_true_eq]
        intro hxu
        exact hdisj hxt (List.mem_flatten.mpr ⟨u, hu, hxu⟩)
      rw [hzero]
      simp [hxt]
    · have hxnt : x ∉ t := fun hc => hdisj hc hxts
      rw [ih hndts hxts]
      simp [hxnt]

/-- Helper: filtering the index range by membership in a duplicate-free
subset of it recovers that subset up to permutation. -/
theorem filter_mem_perm (n : ℕ) (t : List ℕ)
    (hnd : t.Nodup) (hsub : ∀ x ∈ t, x ∈ List.range n) :
    ((List.range n).filter (fun x => decide (x ∈ t))).Perm t := by
  apply (List.perm_ext_iff_of_nodup (List.Nodup.filter _ (List.nodup_range n)) hnd).mpr
  intro a
  simp only [List.mem_filter, decide_eq_true_eq]
  constructor
  · rintro ⟨_, h⟩
    exact h
  · intro h
    exact ⟨hsub a h, h⟩

/-- Helper: within one fold, train indices plus test indices permute the
full index range. -/
theorem train_test_union_perm (n : ℕ) (t : List ℕ)
    (hnd : t.Nodup) (hsub : ∀ x ∈ t, x ∈ List.range n) :
    (kfoldTrainSet n t ++ t).Perm (List.range n) := by
  have h1 := List.filter_append_perm (fun x => decide (x ∈ t)) (List.range n)
  have h2 : kfoldTrainSet n t = (List.range n).filter (fun x => !decide (x ∈ t)) := by
    unfold kfoldTrainSet
    apply List.filter_congr
    intro x _
    simp [decide_not]
  rw [h2]
  have hA : ((List.range n).filter (fun x => !decide (x ∈ t)) ++ t).Perm
      ((List.range n).filter (fun x => !decide (x ∈ t)) ++
       (List.range n).filter (fun x => decide (x ∈ t))) :=
    List.Perm.append_left _ (filter_mem_perm n t hnd hsub).symm
  exact hA.trans (List.perm_append_comm.trans h1)

/-- C1: the seeded shuffled 5-fold split partitions the dataset indices:
there are exactly 5 folds, within every fold the train and test index sets
are disjoint and together permute the full index range, across the folds
every index lies in exactly one test set, and the splits are a function of
the RNG stream drawn from the fixed seed, hence identical across runs. -/
theorem kfold_split_partition (n : ℕ) (sh : ℕ → List ℕ → List ℕ)
    (hp : (sh seedVal (List.range n)).Perm (List.range n)) :
    (kfoldRun sh n).length = 5 ∧
    (∀ pr ∈ kfoldRun sh n,
      (∀ x, ¬(x ∈ pr.1 ∧ x ∈ pr.2)) ∧ (pr.1 ++ pr.2).Perm (List.range n)) ∧
    (∀ x, x < n →
      ((kfoldRun sh n).map Prod.snd).countP (fun t => decide (x ∈ t)) = 1) ∧
    (∀ sh2 : ℕ → List ℕ → List ℕ,
      sh2 seedVal (List.range n) = sh seedVal (List.range n) →
      kfoldRun sh2 n = kfoldRun sh n) := by
  have hlen : (sh seedVal (List.range n)).length = n := by
    rw [hp.length_eq, List.length_range]
  have hnd : (sh seedVal (List.range n)).Nodup :=
    hp.nodup_iff.mpr (List.nodup_range n)
  have hjoin : (kfoldTestSets (sh seedVal (List.range n))).flatten =
      sh seedVal (List.range n) :=
    chunksBySizes_join _ _ (by rw [foldSizes_sum])
  refine ⟨?_, ?_, ?_, ?_⟩
  · show (kfoldSplits (sh seedVal (List.range n))).length = 5
    unfold kfoldSplits kfoldTestSets
    rw [List.length_map, chunksBySizes_length]
    rfl
  · intro pr hpr
    obtain ⟨t, ht, rfl⟩ := List.mem_map.mp hpr
    constructor
    · rintro x ⟨hx1, hx2⟩
      have hmf := List.mem_filter.mp hx1
      simp only [decide_eq_true_eq] at hmf
      exact hmf.2 hx2
    · have hsubl : t.Sublist (sh seedVal (List.range n)) :=
        chunksBySizes_sublist _ _ t ht
      have hndt : t.Nodup := hnd.sublist hsubl
      have hsub : ∀ x ∈ t, x ∈ List.range n := fun x hx =>
        hp.subset (hsubl.subset hx)
      show (kfoldTrainSet (sh seedVal (List.range n)).length t ++ t).Perm (List.range n)
      rw [hlen]
      exact train_test_union_perm n t hndt hsub
  · intro x hx
    have hmap : (kfoldRun sh n).map Prod.snd =
        kfoldTestSets (sh seedVal (List.range n)) := by
      show (kfoldSplits (sh seedVal (List.range n))).map Prod.snd = _
      unfold kfoldSplits
      rw [List.map_map]
      have hcomp : (Prod.snd ∘ fun t : List ℕ =>
          (kfoldTrainSet (sh seedVal (List.range n)).length t, t)) = fun t => t := rfl
      rw [hcomp]
      exact List.map_id' _
    rw [hmap]
    apply countP_join_nodup
    · rw [hjoin]
      exact hnd
    · rw [hjoin]
      exact hp.mem_iff.mpr (List.mem_range.mpr hx)
  · intro sh2 heq
    show kfoldSplits (sh2 seedVal (List.range n)) = kfoldSplits (sh seedVal (List.range n))
    rw [heq]

/-- Witness for C1 on 7 samples with a concrete shuffle (reversal). -/
theorem kfold_split_partition_witness :
    ((List.range 7).reverse).Perm (List.range 7) ∧
    ((kfoldRun (fun _ l => l.reverse) 7).length = 5 ∧
     (∀ pr ∈ kfoldRun (fun _ l => l.reverse) 7,
       (∀ x, ¬(x ∈ pr.1 ∧ x ∈ pr.2)) ∧ (pr.1 ++ pr.2).Perm (List.range 7)) ∧
     (∀ x, x < 7 →
       ((kfoldRun (fun _ l => l.reverse) 7).map Prod.snd).countP
         (fun t => decide (x ∈ t)) = 1) ∧
     (∀ sh2 : ℕ → List ℕ → List ℕ,
       sh2 seedVal (List.range 7) = (fun _ l => l.reverse) seedVal (List.range 7) →
       kfoldRun sh2 7 = kfoldRun (fun _ l => l.reverse) 7)) :=
  ⟨List.reverse_perm (List.range 7),
   kfold_split_partition 7 (fun _ l => l.reverse) (List.reverse_perm (List.range 7))⟩
